import Mathlib

/-!
Verification development for the SEOMining analysis pipeline.

The definitions below are shallow embeddings of the Python source of the
repository (`backend/app/services/...` and `backend/app/enhanced_workflow_runner.py`).
Python `str` values are modelled as `List Char`, machine floats as exact
rationals (`ℚ`) or reals (`ℝ`), NumPy row matrices as `List (List ℝ)`.
Division by zero follows the Lean convention `x / 0 = 0`.
-/

namespace SEOMining

/- Batteries marks the `Rat` arithmetic operations `@[irreducible]`, which
blocks kernel evaluation by `decide`; restore the default reducibility for
this file so that concrete rational computations can be checked. -/
attribute [local semireducible] Rat.mul Rat.add Rat.inv Rat.sub Rat.ofScientific

/- ===== Python string primitives =====
   `backend` code relies on `str.strip()`, `str.split()`, `str.lower()`,
   substring tests (`in`), and `re` splits.  These are modelled over
   `List Char` for the ASCII range used by the pipeline. -/

/-- Python's `\s` class (and the default `str.strip`/`str.split` separators)
restricted to ASCII: space, tab, newline, carriage return, vertical tab,
form feed. -/
def isPySpace (c : Char) : Bool :=
  c = ' ' || c = '\t' || c = '\n' || c = '\r' || c = '\x0b' || c = '\x0c'

/-- Python `str.strip()`: drop leading and trailing whitespace. -/
def pyStrip (s : List Char) : List Char :=
  ((s.dropWhile isPySpace).reverse.dropWhile isPySpace).reverse

/-- Helper for `pyWords`: accumulate the current word (reversed) while
scanning. -/
def pyWordsAux : List Char → List Char → List (List Char)
  | cur, [] => if cur.isEmpty then [] else [cur.reverse]
  | cur, c :: cs =>
    if isPySpace c then
      if cur.isEmpty then pyWordsAux [] cs else cur.reverse :: pyWordsAux [] cs
    else
      pyWordsAux (c :: cur) cs

/-- Python `str.split()` with no argument: split on whitespace runs,
discarding empty pieces. -/
def pyWords (s : List Char) : List (List Char) :=
  pyWordsAux [] s

/-- Python `str.lower()` (ASCII letters; the pipeline only lowercases
scraped ASCII text). -/
def toLowerChars (s : List Char) : List Char :=
  s.map Char.toLower

/-- Python's substring test `needle in hay`. -/
def containsSub (needle : List Char) : List Char → Bool
  | [] => needle.isEmpty
  | c :: rest => needle.isPrefixOf (c :: rest) || containsSub needle rest

/-- Helper for `splitRuns`: the `Bool` argument records whether the scanner
is inside a run of separator characters (whose remainder must be skipped). -/
def splitRunsGo (p : Char → Bool) : Bool → List Char → List Char → List (List Char)
  | _, cur, [] => [cur.reverse]
  | true, cur, c :: cs =>
    if p c then splitRunsGo p true cur cs else splitRunsGo p false [c] cs
  | false, cur, c :: cs =>
    if p c then cur.reverse :: splitRunsGo p true [] cs
    else splitRunsGo p false (c :: cur) cs

/-- Model of `re.split` with a pattern of the form `[...]+` (e.g.
`re.split(r'[.!?]+', content)`): pieces between maximal nonempty runs of
characters satisfying `p`. -/
def splitRuns (p : Char → Bool) (s : List Char) : List (List Char) :=
  splitRunsGo p false [] s

/-- Sentence delimiters of the `[.!?]+` split in `_extract_phrases`. -/
def isSentenceDelim (c : Char) : Bool :=
  c = '.' || c = '!' || c = '?'

/-- Helper for `normalizeWs`; the flag records whether the previous character
was whitespace (so the run was already replaced). -/
def normWsAux : Bool → List Char → List Char
  | _, [] => []
  | inRun, c :: cs =>
    if isPySpace c then
      if inRun then normWsAux true cs else ' ' :: normWsAux true cs
    else
      c :: normWsAux false cs

/-- Model of `re.sub(r'\s+', ' ', s)`: replace every whitespace run by a
single space. -/
def normalizeWs (s : List Char) : List Char :=
  normWsAux false s

/-- Space-join of a word list, as in `' '.join(words[i:i+n])`. -/
def joinSpace (ws : List (List Char)) : List Char :=
  List.intercalate [' '] ws

/- ===== PhraseMiner =====
   Model of `SemanticOptimizer._extract_phrases` / `_is_stop_phrase`
   (`backend/app/services/optimization/semantic_optimizer.py`, lines 162-212). -/

/-- The leading stop patterns of `_is_stop_phrase`: `^the\s`, `^a\s`, `^an\s`,
`^and\s`, `^or\s`, `^but\s`, `^in\s`, `^on\s`, `^at\s`, `^to\s`, `^for\s`.
Note the source list stops at `for` (there is no `^of\s` pattern). -/
def stopPatternWords : List (List Char) :=
  [['t','h','e'], ['a'], ['a','n'], ['a','n','d'], ['o','r'], ['b','u','t'],
   ['i','n'], ['o','n'], ['a','t'], ['t','o'], ['f','o','r']]

/-- Whether `pat` followed by one whitespace character occurs at the start of
`p`, i.e. `re.match(r'^pat\s', p)` succeeds. -/
def startsWithWordWs (pat p : List Char) : Bool :=
  pat.isPrefixOf p &&
    (match p.drop pat.length with
     | c :: _ => isPySpace c
     | [] => false)

/-- Model of `_is_stop_phrase`. -/
def isStopPhrase (p : List Char) : Bool :=
  stopPatternWords.any (fun pat => startsWithWordWs pat p)

/-- The sentence-phrase part of `_extract_phrases`: split on `[.!?]+`, strip,
keep stripped sentences whose length is in `minLength..maxLength`, normalize
whitespace and keep those with at least 3 words.  The source defaults are
`minLength = 15`, `maxLength = 100`. -/
def sentencePhrases (minLength maxLength : Nat) (content : List Char) : List (List Char) :=
  (splitRuns isSentenceDelim content).filterMap (fun seg =>
    let s := pyStrip seg
    if minLength ≤ s.length ∧ s.length ≤ maxLength then
      let s2 := normalizeWs s
      if 3 ≤ (pyWords s2).length then some s2 else none
    else none)

/-- The n-gram part of `_extract_phrases`: lowercase-split on whitespace and
emit every contiguous n-gram for `n ∈ range(2, 6)`, i.e. `n ∈ {2,3,4,5}`,
excluding stop phrases.  (`len(words) - n + 1` is the Python iteration count;
`words.length + 1 - n` equals it and is 0 when there are fewer than n words.) -/
def ngramPhrases (content : List Char) : List (List Char) :=
  let words := pyWords (toLowerChars content)
  (([2, 3, 4, 5] : List Nat).flatMap (fun n =>
    (List.range (words.length + 1 - n)).map (fun i =>
      joinSpace ((words.drop i).take n)))).filter
    (fun phrase => !(isStopPhrase phrase))

/-- Model of `_extract_phrases`: sentence phrases followed by n-gram phrases,
in source append order; the result is a list (duplicates are kept). -/
def extractPhrases (minLength maxLength : Nat) (content : List Char) : List (List Char) :=
  sentencePhrases minLength maxLength content ++ ngramPhrases content

/- ===== GapAnalyzer =====
   Model of `SemanticOptimizer.analyze_semantic_gaps` and
   `_analyze_phrase_relevance` (`semantic_optimizer.py`, lines 26-160).
   Embedding vectors are exact rationals; the embedding model itself is an
   external neural network, so the analysis is parameterized by an embedding
   map `E`.  `EmbeddingService.encode` normalizes its output
   (`normalize_embeddings=True`), so the maps fed to the theorems are
   unit-normalized (`dotQ (E s) (E s) = 1`), under which SciPy's
   `1 - cosine(u, v)` equals the dot product `dotQ u v`. -/

/-- Dot product of two rational vectors. -/
def dotQ (u v : List ℚ) : ℚ :=
  (List.zipWith (· * ·) u v).sum

/-- First-occurrence-order deduplication; models the key order of a CPython
`dict`/`Counter` built by repeated insertion. -/
def dedupKeepFirst {α : Type} [DecidableEq α] (l : List α) : List α :=
  l.foldl (fun acc x => if x ∈ acc then acc else acc ++ [x]) []

/-- Model of `collections.Counter(l).items()`: each distinct element in
first-occurrence order, paired with its number of occurrences in `l`. -/
def phraseFrequency (l : List (List Char)) : List (List Char × ℕ) :=
  (dedupKeepFirst l).map (fun p => (p, l.count p))

/-- Target phrase list: `_extract_phrases(target_content)` with the source
defaults 15/100. -/
def targetPhraseList (target : List Char) : List (List Char) :=
  extractPhrases 15 100 target

/-- Concatenation of all competitors' extracted phrase lists
(`all_competitor_phrases`), in competitor order; within-competitor
duplicates are kept. -/
def allCompetitorPhrases (competitors : List (List Char)) : List (List Char) :=
  (competitors.map (extractPhrases 15 100)).flatten

/-- Model of `significant_competitor_phrases`: the Counter entries whose
count is at least 3 (the threshold is 3 regardless of how many competitors
there are). -/
def significantCompetitorPhrases (competitors : List (List Char)) :
    List (List Char × ℕ) :=
  (phraseFrequency (allCompetitorPhrases competitors)).filter (fun pc => 3 ≤ pc.2)

/-- Model of `missing_phrases`: significant competitor phrases not present in
the target phrase set, in Counter order. -/
def missingPhrases (target : List Char) (competitors : List (List Char)) :
    List (List Char) :=
  ((significantCompetitorPhrases competitors).map Prod.fst).filter
    (fun p => !((targetPhraseList target).contains p))

/-- True when the integer is even; used for the half-to-even tie rule of
Python's `round`. -/
def evenInt (n : ℤ) : Bool :=
  n % 2 == 0

/-- Round a rational to the nearest integer, ties to even (the semantics of
Python's builtin `round` on exact values). -/
def roundHalfEven (x : ℚ) : ℤ :=
  let n := ⌊x⌋
  let f := x - n
  if f < 1/2 then n
  else if 1/2 < f then n + 1
  else if evenInt n then n else n + 1

/-- Model of Python's `round(x, d)` on exact decimal values. -/
def pyRound (d : ℕ) (x : ℚ) : ℚ :=
  (roundHalfEven (x * 10 ^ d) : ℚ) / 10 ^ d

/-- One entry of the `missing_concepts` result list (the per-phrase dict
built by `_analyze_phrase_relevance`). -/
structure GapRec where
  phrase : List Char
  estimated_impact : ℚ
  query_relevance : ℚ
  competitor_usage : ℕ
  competitor_usage_pct : ℚ
  recommendation : String
deriving DecidableEq, Repr

/-- Model of `_generate_recommendation` (called with the unrounded impact). -/
def genRecommendation (impact : ℚ) : String :=
  if 10 < impact then
    "HIGH PRIORITY: Add this concept to your content for significant impact"
  else if 5 < impact then
    "MEDIUM PRIORITY: Including this would improve relevance"
  else
    "LOW PRIORITY: Minor improvement potential"

/-- Model of `_analyze_phrase_relevance`: for each phrase, the query
similarity `1 - cosine(phrase_emb, query_emb)` (the dot product for
unit-normalized embeddings), the number of competitor contents containing
the lowercased phrase as a substring, and the impact
`query_similarity * 10 + (usage / K) * 5`. -/
def analyzePhraseRelevance (E : List Char → List ℚ) (phrases : List (List Char))
    (query : List Char) (competitorContents : List (List Char)) : List GapRec :=
  phrases.map (fun phrase =>
    let querySimilarity := dotQ (E phrase) (E query)
    let usage := (competitorContents.filter
      (fun c => containsSub (toLowerChars phrase) (toLowerChars c))).length
    let impact := querySimilarity * 10 +
      ((usage : ℚ) / (competitorContents.length : ℚ)) * 5
    { phrase := phrase
      estimated_impact := pyRound 2 impact
      query_relevance := pyRound 1 (querySimilarity * 100)
      competitor_usage := usage
      competitor_usage_pct :=
        pyRound 1 (((usage : ℚ) / (competitorContents.length : ℚ)) * 100)
      recommendation := genRecommendation impact })

/-- The descending-impact order used by
`phrase_analysis.sort(key=lambda x: x['estimated_impact'], reverse=True)`. -/
def gapGE (a b : GapRec) : Prop :=
  b.estimated_impact ≤ a.estimated_impact

instance : DecidableRel gapGE :=
  fun a b => inferInstanceAs (Decidable (b.estimated_impact ≤ a.estimated_impact))

instance : IsTotal GapRec gapGE :=
  ⟨fun a b => le_total b.estimated_impact a.estimated_impact⟩

instance : IsTrans GapRec gapGE :=
  ⟨fun _ _ _ h1 h2 => le_trans h2 h1⟩

/-- Python's `list.sort` is a stable sort; it is modelled by the (stable)
insertion sort on the `gapGE` order. -/
def sortGapsByImpact (l : List GapRec) : List GapRec :=
  List.insertionSort gapGE l

/-- The result of `analyze_semantic_gaps`: the `missing_concepts` list
followed by the `coverage_stats` counters. -/
structure GapAnalysis where
  missing_concepts : List GapRec
  your_unique_phrases : ℕ
  competitor_common_phrases : ℕ
  semantic_gaps_found : ℕ
  high_impact_recommendations : ℕ
deriving DecidableEq, Repr

/-- Model of `analyze_semantic_gaps`: extract, count, filter to significant,
remove target phrases, analyze relevance, sort by impact descending, and
return the first `topN` (`top_n_phrases`, default 50). -/
def analyzeSemanticGaps (E : List Char → List ℚ) (target : List Char)
    (competitors : List (List Char)) (query : List Char) (topN : ℕ) :
    GapAnalysis :=
  let missing := missingPhrases target competitors
  let analysis :=
    if missing.isEmpty then [] else analyzePhraseRelevance E missing query competitors
  let sorted := sortGapsByImpact analysis
  { missing_concepts := sorted.take topN
    your_unique_phrases := (dedupKeepFirst (targetPhraseList target)).length
    competitor_common_phrases := (significantCompetitorPhrases competitors).length
    semantic_gaps_found := missing.length
    high_impact_recommendations :=
      (sorted.filter (fun r => (5 : ℚ) < r.estimated_impact)).length }

/- ===== ContentChunker =====
   Model of `ContentChunker` and `chunk_for_embeddings`
   (`backend/app/services/embeddings/chunking.py`).  `chunk_for_embeddings`
   always builds the chunker with `chunk_size=512`, `overlap=50`,
   `min_chunk_size=50`, `respect_boundaries=True`, so only the
   boundary-respecting path is modelled. -/

/-- Generic last index of an element satisfying `p` (largest such index). -/
def lastIdxWhere {α : Type} (p : α → Bool) (l : List α) : Option ℕ :=
  match l.reverse.findIdx? p with
  | some j => some (l.length - 1 - j)
  | none => none

/-- Length of the match of `\n\s*\n|\r\n\s*\r\n` at the head of `l`, if any.
The greedy `\s*` with backtracking consumes whitespace up to the last
closing `\n` (resp. `\r\n`) inside the whitespace run following the opening
delimiter. -/
def paraMatchLen (l : List Char) : Option ℕ :=
  match l with
  | '\r' :: '\n' :: rest =>
    let w := rest.takeWhile isPySpace
    match lastIdxWhere (fun pr : Char × Char => pr.1 = '\r' && pr.2 = '\n')
        (w.zip w.tail) with
    | some k => some (k + 4)
    | none => none
  | '\n' :: rest =>
    let w := rest.takeWhile isPySpace
    match lastIdxWhere (fun c => c = '\n') w with
    | some k => some (k + 2)
    | none => none
  | _ => none

/-- Scanner for `re.split(r'\n\s*\n|\r\n\s*\r\n', text)`.  `fuel` bounds the
number of scan steps; each step consumes at least one character, so
`fuel = text.length` is always sufficient (the fuel-exhausted fallback is
unreachable then). -/
def reSplitParaGo (p : List Char → Option ℕ) :
    ℕ → List Char → List Char → List (List Char)
  | 0, acc, l => [acc.reverse ++ l]
  | _ + 1, acc, [] => [acc.reverse]
  | fuel + 1, acc, c :: cs =>
    match p (c :: cs) with
    | some m => acc.reverse :: reSplitParaGo p fuel [] ((c :: cs).drop m)
    | none => reSplitParaGo p fuel (c :: acc) cs

/-- Model of `re.split(r'\n\s*\n|\r\n\s*\r\n', text)`. -/
def reSplitPara (l : List Char) : List (List Char) :=
  reSplitParaGo paraMatchLen l.length [] l

/-- Model of `ContentChunker._split_paragraphs`: regex split, strip each
piece, drop the pieces that strip to empty. -/
def splitParagraphs (text : List Char) : List (List Char) :=
  ((reSplitPara text).map pyStrip).filter (fun p => ¬ p.isEmpty)

/-- Scanner for `re.split(r'(?<=[.!?])\s+', paragraph)`: a split point is a
maximal whitespace run immediately preceded by `.`, `!` or `?`.  `prevDelim`
records whether the previous character was a sentence delimiter. -/
def reSplitSentGo : ℕ → Bool → List Char → List Char → List (List Char)
  | 0, _, acc, l => [acc.reverse ++ l]
  | _ + 1, _, acc, [] => [acc.reverse]
  | fuel + 1, prevDelim, acc, c :: cs =>
    if prevDelim && isPySpace c then
      let runLen := ((c :: cs).takeWhile isPySpace).length
      acc.reverse :: reSplitSentGo fuel false [] ((c :: cs).drop runLen)
    else
      reSplitSentGo fuel (isSentenceDelim c) (c :: acc) cs

/-- Model of `re.split(r'(?<=[.!?])\s+', paragraph)`. -/
def reSplitSent (l : List Char) : List (List Char) :=
  reSplitSentGo l.length false [] l

/-- One chunk record (`Chunk` dataclass); only the fields produced by
`chunk_text` are modelled. -/
structure ChunkR where
  text : List Char
  start_idx : ℕ
  end_idx : ℕ
  chunk_type : String
deriving DecidableEq, Repr

/-- Fold step of `_split_long_paragraph`'s sentence loop; the state is
`(chunks, current_chunk, current_start)`.  The source updates
`current_start` with `len(current_chunk)` after reassigning
`current_chunk = sentence`. -/
def splitLongParaStep (chunkSize : ℕ) (st : List ChunkR × List Char × ℕ)
    (sentence : List Char) : List ChunkR × List Char × ℕ :=
  let (chunks, cur, curStart) := st
  if chunkSize < cur.length + sentence.length then
    let chunks1 :=
      if (pyStrip cur).isEmpty then chunks
      else chunks ++ [⟨pyStrip cur, curStart, curStart + cur.length, "sentence"⟩]
    (chunks1, sentence, curStart + sentence.length)
  else
    (chunks, if cur.isEmpty then sentence else cur ++ ' ' :: sentence, curStart)

/-- Model of `ContentChunker._split_long_paragraph`. -/
def splitLongParagraph (chunkSize : ℕ) (paragraph : List Char)
    (startOffset : ℕ) : List ChunkR :=
  let (chunks, cur, curStart) :=
    (reSplitSent paragraph).foldl (splitLongParaStep chunkSize) ([], [], startOffset)
  if (pyStrip cur).isEmpty then chunks
  else chunks ++ [⟨pyStrip cur, curStart, curStart + cur.length, "sentence"⟩]

/-- Fold step of `_chunk_with_boundaries`' paragraph loop; the state is
`(chunks, current_chunk, current_start)`. -/
def chunkBoundStep (chunkSize : ℕ) (st : List ChunkR × List Char × ℕ)
    (para : List Char) : List ChunkR × List Char × ℕ :=
  let (chunks, cur, curStart) := st
  if chunkSize < cur.length + para.length then
    let chunks1 :=
      if (pyStrip cur).isEmpty then chunks
      else chunks ++ [⟨pyStrip cur, curStart, curStart + cur.length, "paragraph"⟩]
    if chunkSize < para.length then
      let chunks2 := chunks1 ++ splitLongParagraph chunkSize para (curStart + cur.length)
      let newStart := match chunks2.getLast? with
        | some ch => ch.end_idx
        | none => 0
      (chunks2, [], newStart)
    else
      (chunks1, para, curStart + para.length)
  else
    (chunks, if cur.isEmpty then para else cur ++ '\n' :: '\n' :: para, curStart)

/-- Model of `ContentChunker._chunk_with_boundaries`. -/
def chunkWithBoundaries (chunkSize : ℕ) (text : List Char) : List ChunkR :=
  let (chunks, cur, curStart) :=
    (splitParagraphs text).foldl (chunkBoundStep chunkSize) ([], [], 0)
  if (pyStrip cur).isEmpty then chunks
  else chunks ++ [⟨pyStrip cur, curStart, curStart + cur.length, "paragraph"⟩]

/-- Model of `ContentChunker.chunk_text` with the `chunk_for_embeddings`
configuration (`chunk_size=512`, `min_chunk_size=50`,
`respect_boundaries=True`): text shorter than `minChunkSize` is returned
verbatim as a single `short` chunk, otherwise the boundary-respecting split
runs. -/
def chunkText (chunkSize minChunkSize : ℕ) (text : List Char) : List ChunkR :=
  if text.length < minChunkSize then
    [⟨text, 0, text.length, "short"⟩]
  else
    chunkWithBoundaries chunkSize text

/-- Model of `chunk_for_embeddings(text, chunk_size=512, overlap=50)`:
the texts of the chunks produced by `chunk_text`. -/
def chunkForEmbeddings (text : List Char) : List (List Char) :=
  (chunkText 512 50 text).map ChunkR.text

/- ===== ProxyManager =====
   Model of `ProxyManager` (`backend/app/services/scraping/proxy_manager.py`)
   for the `sequential` rotation strategy (the `random` strategy draws from
   `random.choice` and is not modelled).  The failed set is kept as an
   insertion-ordered duplicate-free list. -/

/-- Mutable state of a `ProxyManager`. -/
structure PMState where
  proxies : List String
  currentIndex : ℕ
  failedProxies : List String
deriving DecidableEq, Repr

/-- The proxies not currently marked failed, in load order
(`[p for p in self.proxies if p not in self.failed_proxies]`). -/
def availableProxies (s : PMState) : List String :=
  s.proxies.filter (fun p => !(s.failedProxies.contains p))

/-- Model of `get_next_proxy` under sequential rotation: `None` on an empty
pool; if every proxy is failed, clear the failed set and use the full list;
index into the available list at `current_index % len` and advance the
index. -/
def getNextProxy (s : PMState) : Option String × PMState :=
  if s.proxies.isEmpty then (none, s)
  else
    let avail := availableProxies s
    let (avail, s') :=
      if avail.isEmpty then (s.proxies, { s with failedProxies := [] }) else (avail, s)
    let proxy := avail.getD (s'.currentIndex % avail.length) ""
    (some proxy, { s' with currentIndex := s'.currentIndex + 1 })

/-- Model of `mark_proxy_failed`: add to the failed set (empty proxy strings
are ignored). -/
def markProxyFailed (s : PMState) (proxy : String) : PMState :=
  if proxy = "" then s
  else if s.failedProxies.contains proxy then s
  else { s with failedProxies := s.failedProxies ++ [proxy] }

/-- Python `str.strip` lifted to `String`. -/
def pyStripStr (s : String) : String :=
  String.mk (pyStrip s.toList)

/-- Model of `load_proxies` applied to the lines of a proxy file: strip each
line, skip blanks and `#` comments, keep lines containing both `@` and `:`. -/
def loadProxies (lines : List String) (s : PMState) : PMState :=
  lines.foldl (fun st line =>
    let l := pyStripStr line
    if l ≠ "" ∧ ¬ l.toList.head? = some '#' then
      if l.toList.contains '@' ∧ l.toList.contains ':' then
        { st with proxies := st.proxies ++ [l] }
      else st
    else st) s

/-- A freshly constructed `ProxyManager` (empty pool, index 0). -/
def initialPMState : PMState :=
  ⟨[], 0, []⟩

/- ===== Orchestrator stage 02 =====
   Model of the resume decision of
   `EnhancedWorkflowRunner.step_02_serp_fetching`
   (`backend/app/enhanced_workflow_runner.py`, lines 77-173). -/

/-- The on-disk `serp_results.json` artifact (the fields the runner reads:
the stored query, the organic result links, and the target ranking). -/
structure SerpArtifact where
  query : String
  organic_links : List String
  target_ranking : Option ℕ
deriving DecidableEq, Repr

/-- Outcome of stage 02: either the cached artifact is reused or a fresh
SERP fetch is performed. -/
inductive Step02Outcome where
  | reuseCache (competitor_urls : List String) (target_ranking : Option ℕ)
  | fetchFresh
deriving DecidableEq, Repr

/-- Model of the stage-02 resume logic: `if self.resume and
serp_file.exists():` load the artifact and return its first `top_n` links;
otherwise fetch fresh.  The stored artifact's `query` field is never
compared with the current project query. -/
def step02SerpFetching (resume : Bool) (artifact : Option SerpArtifact)
    (configQuery : String) (topN : ℕ) : Step02Outcome :=
  match resume, artifact with
  | true, some art => .reuseCache (art.organic_links.take topN) art.target_ranking
  | _, _ =>
    let _ := configQuery
    .fetchFresh

/-- Whether stage 02 reused the cached artifact. -/
def step02Reused (o : Step02Outcome) : Bool :=
  match o with
  | .reuseCache _ _ => true
  | .fetchFresh => false

/- ===== EmbeddingService vector math =====
   Model of `compute_similarity`, `compute_similarity_matrix` and
   `compute_centroid` (`backend/app/services/embeddings/service.py`,
   lines 171-269) over exact reals. -/

/-- Dot product of two real vectors (`np.dot`). -/
noncomputable def dotR (u v : List ℝ) : ℝ :=
  (List.zipWith (· * ·) u v).sum

/-- Euclidean norm (`np.linalg.norm`). -/
noncomputable def normR (v : List ℝ) : ℝ :=
  Real.sqrt (dotR v v)

/-- Model of `compute_similarity`: the cosine
`np.dot(u, v) / (norm(u) * norm(v))` mapped to [0,1] by `(sim + 1)/2`. -/
noncomputable def simMapR (u v : List ℝ) : ℝ :=
  (dotR u v / (normR u * normR v) + 1) / 2

/-- Row normalization `embeddings / norms` of `compute_similarity_matrix`. -/
noncomputable def normalizeVec (v : List ℝ) : List ℝ :=
  v.map (fun x => x / normR v)

/-- Entry `(i, j)` of `compute_similarity_matrix`: dot product of the
normalized rows, mapped to [0,1]. -/
noncomputable def simMatEntry (M : List (List ℝ)) (i j : ℕ) : ℝ :=
  (dotR (normalizeVec (M.getD i [])) (normalizeVec (M.getD j [])) + 1) / 2

/-- Model of `compute_centroid`: `np.mean(embeddings, axis=0)`, the
componentwise mean of the rows.  The source does not normalize the result. -/
noncomputable def computeCentroid (M : List (List ℝ)) : List ℝ :=
  match M with
  | [] => []
  | r :: rs =>
    (rs.foldl (List.zipWith (· + ·)) r).map (fun x => x / ((rs.length + 1 : ℕ) : ℝ))

/- ===== NumPy statistics over lists ===== -/

/-- Model of `np.mean`. -/
noncomputable def meanR (xs : List ℝ) : ℝ :=
  xs.sum / xs.length

/-- Model of `np.var` (population variance, the square of `np.std`). -/
noncomputable def varR (xs : List ℝ) : ℝ :=
  meanR (xs.map (fun x => (x - meanR xs) ^ 2))

/-- Model of `np.std` (population standard deviation). -/
noncomputable def stdR (xs : List ℝ) : ℝ :=
  Real.sqrt (varR xs)

/-- Model of `np.max` on a nonempty list (0 on the empty list, which the
scorer never reaches). -/
noncomputable def pyMax : List ℝ → ℝ
  | [] => 0
  | x :: xs => xs.foldl max x

/-- Model of `np.diff`: consecutive differences. -/
noncomputable def diffList (xs : List ℝ) : List ℝ :=
  List.zipWith (fun a b => b - a) xs xs.tail

/- ===== ScoringService =====
   Model of `ScoringService.score_content` and its dimension scorers
   (`backend/app/services/scoring/service.py`).  The embedding model is an
   external dependency, abstracted as a map `E` from texts to vectors. -/

/-- Sequential similarities `compute_similarity(E[i], E[i+1])` used by the
hierarchy and structure scorers. -/
noncomputable def seqSims (M : List (List ℝ)) : List ℝ :=
  (List.range (M.length - 1)).map (fun i => simMapR (M.getD i []) (M.getD (i + 1) []))

/-- Row means `similarity_matrix.mean(axis=1)` (diagonal included). -/
noncomputable def rowMeans (M : List (List ℝ)) : List ℝ :=
  (List.range M.length).map (fun i =>
    meanR ((List.range M.length).map (fun j => simMatEntry M i j)))

/-- The off-diagonal entries selected by `similarity_matrix[mask]` with
`mask = ~np.eye(n)`. -/
noncomputable def offDiagEntries (M : List (List ℝ)) : List ℝ :=
  (List.range M.length).flatMap (fun i =>
    ((List.range M.length).filter (fun j => j ≠ i)).map (fun j => simMatEntry M i j))

/-- Model of `_score_metadata_alignment`: mean mapped similarity of the
non-empty metadata texts to the content centroid, rescaled to 0..100; 0 when
both metadata fields are empty. -/
noncomputable def scoreMetadataAlignment (E : List Char → List ℝ)
    (title description : List Char) (M : List (List ℝ)) : ℝ :=
  let metadataTexts := [title, description].filter (fun t => ¬ t.isEmpty)
  if metadataTexts.isEmpty then 0
  else
    let contentCentroid := computeCentroid M
    meanR (metadataTexts.map (fun t => simMapR (E t) contentCentroid)) * 100

/-- Model of `_score_hierarchical_decomposition`. -/
noncomputable def scoreHierarchicalDecomposition (chunks : List (List Char))
    (M : List (List ℝ)) : ℝ :=
  if chunks.length < 2 then 50
  else
    let seq := seqSims M
    let avgSeqSim := meanR seq
    let stdSeqSim := stdR seq
    let simScore := max 0 (1 - |avgSeqSim - 0.6| / 0.3) * 100
    let consistencyScore := max 0 (1 - stdSeqSim / 0.2) * 100
    simScore * 0.6 + consistencyScore * 0.4

/-- Model of `_score_thematic_unity`: mean off-diagonal similarity rescaled
to 0..100. -/
noncomputable def scoreThematicUnity (M : List (List ℝ)) : ℝ :=
  if M.length < 2 then 50
  else meanR (offDiagEntries M) * 100

/-- Model of `_score_balance`. -/
noncomputable def scoreBalance (chunks : List (List Char)) (M : List (List ℝ)) : ℝ :=
  if chunks.length < 3 then 50
  else
    let chunkSizes := chunks.map (fun c => (c.length : ℝ))
    let avgSize := meanR chunkSizes
    let sizeStd := stdR chunkSizes
    let sizeCv := if 0 < avgSize then sizeStd / avgSize else 1
    let sizeScore := max 0 (1 - sizeCv) * 100
    let diversityScore := (1 - stdR (rowMeans M)) * 100
    sizeScore * 0.4 + diversityScore * 0.6

/-- Model of `_score_query_intent`. -/
noncomputable def scoreQueryIntent (E : List Char → List ℝ) (query : List Char)
    (M : List (List ℝ)) : ℝ :=
  let sims := M.map (fun m => simMapR (E query) m)
  (meanR sims * 0.6 + pyMax sims * 0.4) * 100

/-- Model of `_score_structural_coherence`. -/
noncomputable def scoreStructuralCoherence (chunks : List (List Char))
    (M : List (List ℝ)) : ℝ :=
  if chunks.length < 3 then 50
  else
    let flow := seqSims M
    let avgFlow := meanR flow
    let flowConsistency := 1 - stdR flow
    let distanceSims := (List.range' 1 (min 5 chunks.length - 1)).filterMap (fun d =>
      let sims := (List.range (M.length - d)).map (fun i =>
        simMapR (M.getD i []) (M.getD (i + d) []))
      if sims.isEmpty then none else some (meanR sims))
    let progressionScore :=
      if 1 < distanceSims.length then
        min 100 (max 0 (-(meanR (diffList distanceSims)) * 200))
      else 50
    avgFlow * 40 + flowConsistency * 30 + progressionScore * 0.3

/-- Model of `_calculate_seo_score`. -/
noncomputable def calculateSeoScore (metadata thematic intent structural : ℝ)
    (title description text : List Char) : ℝ :=
  let semanticScore :=
    metadata * 0.25 + thematic * 0.25 + intent * 0.30 + structural * 0.20
  let traditionalBonus : ℝ :=
    (if ¬ title.isEmpty then 5 else 0) +
    (if ¬ description.isEmpty then 5 else 0) +
    (if 300 ≤ text.length ∧ text.length ≤ 5000 then 5 else 0)
  min 100 (semanticScore + traditionalBonus)

/-- The `ContentScore` dataclass; `details_error` models the presence of the
`error` key in the `details` dict. -/
structure ContentScoreR where
  metadata_alignment : ℝ
  hierarchical_decomposition : ℝ
  thematic_unity : ℝ
  balance : ℝ
  query_intent : ℝ
  structural_coherence : ℝ
  composite_score : ℝ
  seo_score : ℝ
  details_error : Option String

/-- Model of `_create_zero_score`. -/
def createZeroScore (reason : String) : ContentScoreR :=
  ⟨0, 0, 0, 0, 0, 0, 0, 0, some reason⟩

/-- Python truthiness of the optional `query` argument (absent or empty
string are falsy). -/
def optTruthy : Option (List Char) → Bool
  | none => false
  | some s => ¬ s.isEmpty

/-- Model of `ScoringService.score_content`: chunk the text, embed the
chunks, score the six dimensions, and form the composite and SEO scores.
The composite weights are the constructor's
`{metadata: 0.15, hierarchy: 0.15, thematic: 0.20, balance: 0.10,
intent: 0.20, structural: 0.20}`. -/
noncomputable def scoreContent (E : List Char → List ℝ) (text title description : List Char)
    (query : Option (List Char)) : ContentScoreR :=
  let chunks := chunkForEmbeddings text
  if chunks.isEmpty then createZeroScore "No content to analyze"
  else
    let M := chunks.map E
    let metadata := scoreMetadataAlignment E title description M
    let hierarchy := scoreHierarchicalDecomposition chunks M
    let thematic := scoreThematicUnity M
    let balanceScore := scoreBalance chunks M
    let intent :=
      if optTruthy query then scoreQueryIntent E (query.getD []) M else 50
    let structural := scoreStructuralCoherence chunks M
    let composite := metadata * 0.15 + hierarchy * 0.15 + thematic * 0.20 +
      balanceScore * 0.10 + intent * 0.20 + structural * 0.20
    let seo := calculateSeoScore metadata thematic intent structural title description text
    ⟨metadata, hierarchy, thematic, balanceScore, intent, structural, composite, seo, none⟩

/- ===== Spec-side definitions and formalized claims =====
   Each `claimCxProp` states the corresponding claim of the specification
   over the source models above; `spec...` definitions follow the claim's
   words where they differ from the source (for refutation by comparison). -/

/-- The stop patterns asserted by claim C6: the source list plus `of `. -/
def specStopPatternWords : List (List Char) :=
  stopPatternWords ++ [['o', 'f']]

/-- Modelled from the claim's words (C6): n-gram phrases for
`n ∈ {2,3,4,5,6}` filtered by the 12-pattern stop list including `of `. -/
def specNgramPhrases (content : List Char) : List (List Char) :=
  let words := pyWords (toLowerChars content)
  (([2, 3, 4, 5, 6] : List Nat).flatMap (fun n =>
    (List.range (words.length + 1 - n)).map (fun i =>
      joinSpace ((words.drop i).take n)))).filter
    (fun phrase => !(specStopPatternWords.any (fun pat => startsWithWordWs pat phrase)))

/-- Claim C1: every returned gap record's `query_relevance` equals the
[0,1]-mapped cosine `(e_p·q + 1)/2`, `estimated_impact` equals
`10·query_relevance + 5·(usage/K)`, and a phrase is kept only if
`query_relevance > 0.6` and the usage threshold holds
(`≥ max(2, ⌈0.25·K⌉)`, relaxed to `≥ 1` when `K < 4`). -/
def claimC1Prop : Prop :=
  ∀ (E : List Char → List ℚ), (∀ s, dotQ (E s) (E s) = 1) →
  ∀ (target : List Char) (competitors : List (List Char)) (query : List Char)
    (topN : ℕ),
  ∀ r ∈ (analyzeSemanticGaps E target competitors query topN).missing_concepts,
    r.query_relevance = (dotQ (E r.phrase) (E query) + 1) / 2 ∧
    r.estimated_impact = 10 * ((dotQ (E r.phrase) (E query) + 1) / 2) +
      5 * ((r.competitor_usage : ℚ) / (competitors.length : ℚ)) ∧
    ((6 : ℚ) / 10 < (dotQ (E r.phrase) (E query) + 1) / 2 ∧
      (if competitors.length < 4 then 1 ≤ r.competitor_usage
       else max 2 ⌈(competitors.length : ℚ) / 4⌉₊ ≤ r.competitor_usage))

/-- Claim C3: with resume enabled, stage 02 reuses its cached
`serp_results.json` only when the artifact's query matches the current
project query. -/
def claimC3Prop : Prop :=
  ∀ (resume : Bool) (art : SerpArtifact) (configQuery : String) (topN : ℕ),
    step02Reused (step02SerpFetching resume (some art) configQuery topN) = true →
    art.query = configQuery

/-- Claim C4: a competitor phrase is significant exactly when the number of
distinct competitor phrase sets containing it is at least 3 (at least 1 when
there are fewer than 3 competitors); within-competitor repetitions do not
count. -/
def claimC4Prop : Prop :=
  ∀ (competitors : List (List Char)) (p : List Char),
    p ∈ (significantCompetitorPhrases competitors).map Prod.fst ↔
      (let k := (competitors.filter
        (fun c => (extractPhrases 15 100 c).contains p)).length
       if competitors.length < 3 then 1 ≤ k else 3 ≤ k)

/-- Claim C5: the returned gap list contains no target phrase, is strictly
sorted by `estimated_impact` descending, and has length at most `topN`. -/
def claimC5Prop : Prop :=
  ∀ (E : List Char → List ℚ) (target : List Char)
    (competitors : List (List Char)) (query : List Char) (topN : ℕ),
    (∀ r ∈ (analyzeSemanticGaps E target competitors query topN).missing_concepts,
      r.phrase ∉ targetPhraseList target) ∧
    (analyzeSemanticGaps E target competitors query topN).missing_concepts.Pairwise
      (fun a b => b.estimated_impact < a.estimated_impact) ∧
    (analyzeSemanticGaps E target competitors query topN).missing_concepts.length ≤ topN

/-- Claim C6: the extraction returns exactly the sentence phrases of length
15..200 with at least 3 words plus every lowercase n-gram for
`n ∈ {2,…,6}` not matching the stop list including `of `. -/
def claimC6Prop : Prop :=
  ∀ (content p : List Char),
    p ∈ extractPhrases 15 100 content ↔
      (p ∈ sentencePhrases 15 200 content ∨ p ∈ specNgramPhrases content)

/-- Claim C7: on empty text, `score_content` returns the all-zero
`ContentScore` carrying the error reason `"No content to analyze"`. -/
def claimC7Prop : Prop :=
  ∀ (E : List Char → List ℝ) (title description : List Char)
    (query : Option (List Char)),
    scoreContent E [] title description query =
      createZeroScore "No content to analyze"

/-- Claim C8: the centroid of a non-empty embedding matrix is a unit vector
up to 1e-4 (as `normalize(mean(M, axis=0))` would be). -/
def claimC8Prop : Prop :=
  ∀ M : List (List ℝ), M ≠ [] →
    |normR (computeCentroid M) - 1| ≤ 1 / 10000

/-- Claim C9: under sequential rotation, when the set of available proxies
has size at least 2, two consecutive `next()` calls never return the same
proxy. -/
def claimC9Prop : Prop :=
  ∀ s : PMState, 2 ≤ (dedupKeepFirst (availableProxies s)).length →
    (getNextProxy s).1 ≠ (getNextProxy (getNextProxy s).2).1

/-- Claim C10: `chunk_for_embeddings` never returns an empty list, and any
text shorter than 50 characters is returned verbatim as a single chunk. -/
def claimC10Prop : Prop :=
  ∀ text : List Char,
    chunkForEmbeddings text ≠ [] ∧
    (text.length < 50 → chunkForEmbeddings text = [text])

/- ===== Analysis toolkit =====
   Range and positivity facts about the vector and statistics models,
   culminating in `simMapR ∈ [0,1]` and `stdR ≤ 1/2` for [0,1]-valued
   data. -/

theorem dotR_eq_sum_range (u v : List ℝ) :
    dotR u v = ∑ i ∈ Finset.range (min u.length v.length), u.getD i 0 * v.getD i 0 := by
  induction u generalizing v with
  | nil => simp [dotR]
  | cons a u ih =>
    cases v with
    | nil => simp [dotR]
    | cons b v =>
      simp only [dotR, List.zipWith_cons_cons, List.sum_cons, List.length_cons]
      rw [show min (u.length + 1) (v.length + 1) = min u.length v.length + 1 by omega,
        Finset.sum_range_succ']
      simp only [List.getD_cons_succ, List.getD_cons_zero]
      rw [← dotR, ih]
      ring

theorem dotR_self_nonneg (v : List ℝ) : 0 ≤ dotR v v := by
  rw [dotR_eq_sum_range]
  exact Finset.sum_nonneg fun i _ => mul_self_nonneg _

theorem dotR_sq_le_mul (u v : List ℝ) : dotR u v ^ 2 ≤ dotR u u * dotR v v := by
  rw [dotR_eq_sum_range u v, dotR_eq_sum_range u u, dotR_eq_sum_range v v,
    min_self, min_self]
  calc (∑ i ∈ Finset.range (min u.length v.length), u.getD i 0 * v.getD i 0) ^ 2
      ≤ (∑ i ∈ Finset.range (min u.length v.length), u.getD i 0 ^ 2) *
        ∑ i ∈ Finset.range (min u.length v.length), v.getD i 0 ^ 2 :=
        Finset.sum_mul_sq_le_sq_mul_sq _ _ _
    _ ≤ (∑ i ∈ Finset.range u.length, u.getD i 0 ^ 2) *
        ∑ i ∈ Finset.range v.length, v.getD i 0 ^ 2 := by
        apply mul_le_mul
        · exact Finset.sum_le_sum_of_subset_of_nonneg
            (Finset.range_subset.2 (min_le_left _ _)) (fun i _ _ => sq_nonneg _)
        · exact Finset.sum_le_sum_of_subset_of_nonneg
            (Finset.range_subset.2 (min_le_right _ _)) (fun i _ _ => sq_nonneg _)
        · exact Finset.sum_nonneg fun i _ => sq_nonneg _
        · exact Finset.sum_nonneg fun i _ => sq_nonneg _
    _ = (∑ i ∈ Finset.range u.length, u.getD i 0 * u.getD i 0) *
        ∑ i ∈ Finset.range v.length, v.getD i 0 * v.getD i 0 := by
        simp [sq]

theorem normR_nonneg (v : List ℝ) : 0 ≤ normR v :=
  Real.sqrt_nonneg _

theorem abs_dotR_le_norms (u v : List ℝ) : |dotR u v| ≤ normR u * normR v := by
  have h := dotR_sq_le_mul u v
  have : normR u * normR v = Real.sqrt (dotR u u * dotR v v) :=
    (Real.sqrt_mul (dotR_self_nonneg u) _).symm
  rw [this, ← Real.sqrt_sq_eq_abs]
  exact Real.sqrt_le_sqrt h

theorem simMapR_nonneg (u v : List ℝ) : 0 ≤ simMapR u v := by
  unfold simMapR
  rcases eq_or_ne (normR u * normR v) 0 with h | h
  · rw [h, div_zero]; norm_num
  · have hpos : 0 < normR u * normR v :=
      lt_of_le_of_ne (mul_nonneg (normR_nonneg u) (normR_nonneg v)) (Ne.symm h)
    have habs : |dotR u v / (normR u * normR v)| ≤ 1 := by
      rw [abs_div, abs_of_pos hpos]
      exact div_le_one_of_le₀ (abs_dotR_le_norms u v) hpos.le
    have := (abs_le.1 habs).1
    linarith

theorem simMapR_le_one (u v : List ℝ) : simMapR u v ≤ 1 := by
  unfold simMapR
  rcases eq_or_ne (normR u * normR v) 0 with h | h
  · rw [h, div_zero]; norm_num
  · have hpos : 0 < normR u * normR v :=
      lt_of_le_of_ne (mul_nonneg (normR_nonneg u) (normR_nonneg v)) (Ne.symm h)
    have habs : |dotR u v / (normR u * normR v)| ≤ 1 := by
      rw [abs_div, abs_of_pos hpos]
      exact div_le_one_of_le₀ (abs_dotR_le_norms u v) hpos.le
    have := (abs_le.1 habs).2
    linarith

theorem sum_map_div (l : List ℝ) (c : ℝ) :
    (l.map (fun x => x / c)).sum = l.sum / c := by
  induction l with
  | nil => simp
  | cons a l ih => simp [ih, add_div]

theorem dotR_normalize (u v : List ℝ) :
    dotR (normalizeVec u) (normalizeVec v) = dotR u v / (normR u * normR v) := by
  unfold dotR normalizeVec
  rw [List.zipWith_map]
  have : (fun (a b : ℝ) => a / normR u * (b / normR v)) =
      fun a b => (a * b) / (normR u * normR v) := by
    funext a b
    rw [div_mul_div_comm]
  rw [this, ← List.map_zipWith (fun x => x / (normR u * normR v)) (· * ·) u v,
    sum_map_div]

theorem simMatEntry_eq (M : List (List ℝ)) (i j : ℕ) :
    simMatEntry M i j = simMapR (M.getD i []) (M.getD j []) := by
  unfold simMatEntry simMapR
  rw [dotR_normalize]

/- Mean, max and standard-deviation bounds. -/

theorem meanR_le_of_forall_le {xs : List ℝ} {b : ℝ} (hne : xs ≠ [])
    (h : ∀ x ∈ xs, x ≤ b) : meanR xs ≤ b := by
  have hlen : 0 < (xs.length : ℝ) := by
    have := List.length_pos.2 hne
    exact_mod_cast this
  unfold meanR
  rw [div_le_iff₀ hlen]
  calc xs.sum ≤ xs.length • b := List.sum_le_card_nsmul xs b h
    _ = b * xs.length := by rw [nsmul_eq_mul]; ring

theorem le_meanR_of_forall_le {xs : List ℝ} {a : ℝ} (hne : xs ≠ [])
    (h : ∀ x ∈ xs, a ≤ x) : a ≤ meanR xs := by
  have hlen : 0 < (xs.length : ℝ) := by
    have := List.length_pos.2 hne
    exact_mod_cast this
  unfold meanR
  rw [le_div_iff₀ hlen]
  calc a * xs.length = xs.length • a := by rw [nsmul_eq_mul]; ring
    _ ≤ xs.sum := List.card_nsmul_le_sum xs a h

theorem meanR_nonneg_of_forall {xs : List ℝ} (h : ∀ x ∈ xs, 0 ≤ x) :
    0 ≤ meanR xs := by
  unfold meanR
  exact div_nonneg (List.sum_nonneg h) (Nat.cast_nonneg _)

theorem meanR_mem_unit {xs : List ℝ} (h : ∀ x ∈ xs, 0 ≤ x ∧ x ≤ 1) :
    0 ≤ meanR xs ∧ meanR xs ≤ 1 := by
  rcases eq_or_ne xs [] with rfl | hne
  · simp [meanR]
  · exact ⟨meanR_nonneg_of_forall (fun x hx => (h x hx).1),
      meanR_le_of_forall_le hne (fun x hx => (h x hx).2)⟩

theorem foldl_max_le {b : ℝ} : ∀ (xs : List ℝ) (x : ℝ), x ≤ b →
    (∀ y ∈ xs, y ≤ b) → xs.foldl max x ≤ b
  | [], x, hx, _ => hx
  | y :: ys, x, hx, h => by
    simp only [List.foldl_cons]
    exact foldl_max_le ys (max x y)
      (max_le hx (h y (List.mem_cons_self _ _)))
      (fun z hz => h z (List.mem_cons_of_mem _ hz))

theorem le_foldl_max : ∀ (xs : List ℝ) (x : ℝ), x ≤ xs.foldl max x
  | [], _ => le_refl _
  | y :: ys, x => by
    simp only [List.foldl_cons]
    exact le_trans (le_max_left x y) (le_foldl_max ys (max x y))

theorem pyMax_mem_unit {xs : List ℝ} (h : ∀ x ∈ xs, 0 ≤ x ∧ x ≤ 1) :
    0 ≤ pyMax xs ∧ pyMax xs ≤ 1 := by
  cases xs with
  | nil => simp [pyMax]
  | cons x ys =>
    constructor
    · exact le_trans (h x (List.mem_cons_self _ _)).1 (le_foldl_max ys x)
    · exact foldl_max_le ys x (h x (List.mem_cons_self _ _)).2
        (fun y hy => (h y (List.mem_cons_of_mem _ hy)).2)

theorem varR_nonneg (xs : List ℝ) : 0 ≤ varR xs := by
  unfold varR
  exact meanR_nonneg_of_forall (by
    intro x hx
    obtain ⟨y, _, rfl⟩ := List.mem_map.1 hx
    exact sq_nonneg _)

theorem stdR_nonneg (xs : List ℝ) : 0 ≤ stdR xs :=
  Real.sqrt_nonneg _

theorem sum_map_sq_sub (xs : List ℝ) (c : ℝ) :
    (xs.map (fun x => (x - c) ^ 2)).sum =
      (xs.map (fun x => x ^ 2)).sum - 2 * c * xs.sum + xs.length * c ^ 2 := by
  induction xs with
  | nil => simp
  | cons a xs ih =>
    simp only [List.map_cons, List.sum_cons, List.length_cons, ih]
    push_cast
    ring

theorem varR_eq_mean_sq_sub {xs : List ℝ} (hne : xs ≠ []) :
    varR xs = meanR (xs.map (fun x => x ^ 2)) - (meanR xs) ^ 2 := by
  have hlen : (xs.length : ℝ) ≠ 0 := by
    have := List.length_pos.2 hne
    positivity
  unfold varR meanR
  rw [sum_map_sq_sub]
  simp only [List.length_map]
  field_simp
  ring

theorem meanR_map_le_of_forall {xs : List ℝ} {f g : ℝ → ℝ}
    (h : ∀ x ∈ xs, f x ≤ g x) :
    meanR (xs.map f) ≤ meanR (xs.map g) := by
  rcases eq_or_ne xs [] with rfl | hne
  · simp [meanR]
  · have hpos : (0 : ℝ) < (xs.length : ℝ) := by
      exact_mod_cast List.length_pos.2 hne
    unfold meanR
    simp only [List.length_map]
    exact (div_le_div_iff_of_pos_right hpos).2 (List.sum_le_sum h)

theorem varR_le_quarter {xs : List ℝ} (h : ∀ x ∈ xs, 0 ≤ x ∧ x ≤ 1) :
    varR xs ≤ 1 / 4 := by
  rcases eq_or_ne xs [] with rfl | hne
  · simp [varR, meanR]
  · rw [varR_eq_mean_sq_sub hne]
    have hsq : meanR (xs.map (fun x => x ^ 2)) ≤ meanR xs := by
      have : meanR (xs.map (fun x => x ^ 2)) ≤ meanR (xs.map (fun x => x)) := by
        apply meanR_map_le_of_forall
        intro x hx
        nlinarith [(h x hx).1, (h x hx).2]
      simpa using this
    have hmem := meanR_mem_unit h
    nlinarith [hmem.1, hmem.2, hsq, sq_nonneg (meanR xs - 1 / 2)]

theorem stdR_le_half {xs : List ℝ} (h : ∀ x ∈ xs, 0 ≤ x ∧ x ≤ 1) :
    stdR xs ≤ 1 / 2 := by
  unfold stdR
  have h4 : (1 : ℝ) / 2 = Real.sqrt (1 / 4) := by
    rw [show (1 : ℝ) / 4 = (1 / 2) ^ 2 by norm_num, Real.sqrt_sq (by norm_num)]
  rw [h4]
  exact Real.sqrt_le_sqrt (varR_le_quarter h)

/- ===== Dimension score bounds ===== -/

theorem simMapR_mem_unit (u v : List ℝ) : 0 ≤ simMapR u v ∧ simMapR u v ≤ 1 :=
  ⟨simMapR_nonneg u v, simMapR_le_one u v⟩

theorem simMatEntry_mem_unit (M : List (List ℝ)) (i j : ℕ) :
    0 ≤ simMatEntry M i j ∧ simMatEntry M i j ≤ 1 := by
  rw [simMatEntry_eq]
  exact simMapR_mem_unit _ _

theorem offDiagEntries_mem_unit (M : List (List ℝ)) :
    ∀ x ∈ offDiagEntries M, 0 ≤ x ∧ x ≤ 1 := by
  intro x hx
  simp only [offDiagEntries, List.mem_flatMap, List.mem_map, List.mem_filter] at hx
  obtain ⟨i, _, j, _, rfl⟩ := hx
  exact simMatEntry_mem_unit M i j

theorem rowMeans_mem_unit (M : List (List ℝ)) :
    ∀ x ∈ rowMeans M, 0 ≤ x ∧ x ≤ 1 := by
  intro x hx
  simp only [rowMeans, List.mem_map] at hx
  obtain ⟨i, _, rfl⟩ := hx
  apply meanR_mem_unit
  intro y hy
  simp only [List.mem_map] at hy
  obtain ⟨j, _, rfl⟩ := hy
  exact simMatEntry_mem_unit M i j

theorem seqSims_mem_unit (M : List (List ℝ)) :
    ∀ x ∈ seqSims M, 0 ≤ x ∧ x ≤ 1 := by
  intro x hx
  simp only [seqSims, List.mem_map] at hx
  obtain ⟨i, _, rfl⟩ := hx
  exact simMapR_mem_unit _ _

theorem scoreMetadataAlignment_mem (E : List Char → List ℝ)
    (title description : List Char) (M : List (List ℝ)) :
    0 ≤ scoreMetadataAlignment E title description M ∧
      scoreMetadataAlignment E title description M ≤ 100 := by
  unfold scoreMetadataAlignment
  dsimp only
  split_ifs with h
  · norm_num
  · have hb : ∀ x ∈ ([title, description].filter (fun t => ¬ t.isEmpty)).map
        (fun t => simMapR (E t) (computeCentroid M)), 0 ≤ x ∧ x ≤ 1 := by
      intro x hx
      simp only [List.mem_map] at hx
      obtain ⟨t, _, rfl⟩ := hx
      exact simMapR_mem_unit _ _
    have := meanR_mem_unit hb
    constructor <;> nlinarith [this.1, this.2]

theorem scoreHierarchicalDecomposition_mem (chunks : List (List Char))
    (M : List (List ℝ)) :
    0 ≤ scoreHierarchicalDecomposition chunks M ∧
      scoreHierarchicalDecomposition chunks M ≤ 100 := by
  unfold scoreHierarchicalDecomposition
  split_ifs with h
  · norm_num
  · have hsim0 : (0 : ℝ) ≤ max 0 (1 - |meanR (seqSims M) - 0.6| / 0.3) :=
      le_max_left _ _
    have hsim1 : max 0 (1 - |meanR (seqSims M) - 0.6| / 0.3) ≤ 1 := by
      apply max_le (by norm_num)
      have : (0 : ℝ) ≤ |meanR (seqSims M) - 0.6| / 0.3 :=
        div_nonneg (abs_nonneg _) (by norm_num)
      linarith
    have hcon0 : (0 : ℝ) ≤ max 0 (1 - stdR (seqSims M) / 0.2) :=
      le_max_left _ _
    have hcon1 : max 0 (1 - stdR (seqSims M) / 0.2) ≤ 1 := by
      apply max_le (by norm_num)
      have : (0 : ℝ) ≤ stdR (seqSims M) / 0.2 :=
        div_nonneg (stdR_nonneg _) (by norm_num)
      linarith
    constructor <;> nlinarith

theorem scoreThematicUnity_mem (M : List (List ℝ)) :
    0 ≤ scoreThematicUnity M ∧ scoreThematicUnity M ≤ 100 := by
  unfold scoreThematicUnity
  split_ifs with h
  · norm_num
  · have := meanR_mem_unit (offDiagEntries_mem_unit M)
    constructor <;> nlinarith [this.1, this.2]

theorem scoreBalance_mem (chunks : List (List Char)) (M : List (List ℝ)) :
    0 ≤ scoreBalance chunks M ∧ scoreBalance chunks M ≤ 100 := by
  unfold scoreBalance
  split_ifs with h
  · norm_num
  · have hcv : (0 : ℝ) ≤ (if 0 < meanR (chunks.map (fun c => (c.length : ℝ)))
        then stdR (chunks.map (fun c => (c.length : ℝ))) /
          meanR (chunks.map (fun c => (c.length : ℝ)))
        else 1) := by
      split_ifs with havg
      · exact div_nonneg (stdR_nonneg _) havg.le
      · norm_num
    have hsize0 : (0 : ℝ) ≤ max 0 (1 - (if 0 < meanR (chunks.map (fun c => (c.length : ℝ)))
        then stdR (chunks.map (fun c => (c.length : ℝ))) /
          meanR (chunks.map (fun c => (c.length : ℝ)))
        else 1)) := le_max_left _ _
    have hsize1 : max 0 (1 - (if 0 < meanR (chunks.map (fun c => (c.length : ℝ)))
        then stdR (chunks.map (fun c => (c.length : ℝ))) /
          meanR (chunks.map (fun c => (c.length : ℝ)))
        else 1)) ≤ 1 := by
      apply max_le (by norm_num)
      linarith
    have hstd0 : 0 ≤ stdR (rowMeans M) := stdR_nonneg _
    have hstd1 : stdR (rowMeans M) ≤ 1 / 2 := stdR_le_half (rowMeans_mem_unit M)
    constructor <;> nlinarith

theorem scoreQueryIntent_mem (E : List Char → List ℝ) (query : List Char)
    (M : List (List ℝ)) :
    0 ≤ scoreQueryIntent E query M ∧ scoreQueryIntent E query M ≤ 100 := by
  unfold scoreQueryIntent
  have hb : ∀ x ∈ M.map (fun m => simMapR (E query) m), 0 ≤ x ∧ x ≤ 1 := by
    intro x hx
    simp only [List.mem_map] at hx
    obtain ⟨m, _, rfl⟩ := hx
    exact simMapR_mem_unit _ _
  have hmean := meanR_mem_unit hb
  have hmax := pyMax_mem_unit hb
  constructor <;> nlinarith [hmean.1, hmean.2, hmax.1, hmax.2]

theorem scoreStructuralCoherence_mem (chunks : List (List Char))
    (M : List (List ℝ)) :
    0 ≤ scoreStructuralCoherence chunks M ∧
      scoreStructuralCoherence chunks M ≤ 100 := by
  unfold scoreStructuralCoherence
  split_ifs with h
  · norm_num
  · have hflow := meanR_mem_unit (seqSims_mem_unit M)
    have hstd0 : 0 ≤ stdR (seqSims M) := stdR_nonneg _
    have hstd1 : stdR (seqSims M) ≤ 1 / 2 := stdR_le_half (seqSims_mem_unit M)
    set ds := (List.range' 1 (min 5 chunks.length - 1)).filterMap (fun d =>
      let sims := (List.range (M.length - d)).map (fun i =>
        simMapR (M.getD i []) (M.getD (i + d) []))
      if sims.isEmpty then none else some (meanR sims)) with hds
    have hprog : (0 : ℝ) ≤ (if 1 < ds.length then
          min 100 (max 0 (-(meanR (diffList ds)) * 200)) else 50) ∧
        (if 1 < ds.length then
          min 100 (max 0 (-(meanR (diffList ds)) * 200)) else 50) ≤ 100 := by
      split_ifs with hlen
      · exact ⟨le_min (by norm_num) (le_max_left _ _), min_le_left _ _⟩
      · norm_num
    constructor <;> nlinarith [hflow.1, hflow.2, hprog.1, hprog.2]

theorem calculateSeoScore_mem {metadata thematic intent structural : ℝ}
    (hm : 0 ≤ metadata) (ht : 0 ≤ thematic) (hi : 0 ≤ intent)
    (hs : 0 ≤ structural) (title description text : List Char) :
    0 ≤ calculateSeoScore metadata thematic intent structural title description text ∧
      calculateSeoScore metadata thematic intent structural title description text ≤ 100 := by
  unfold calculateSeoScore
  constructor
  · apply le_min (by norm_num)
    have hb : (0 : ℝ) ≤ (if ¬ title.isEmpty then (5 : ℝ) else 0) +
        (if ¬ description.isEmpty then (5 : ℝ) else 0) +
        (if 300 ≤ text.length ∧ text.length ≤ 5000 then (5 : ℝ) else 0) := by
      split_ifs <;> norm_num
    nlinarith
  · exact min_le_left _ _

/-- A `ContentScore` whose eight numeric fields all lie in [0, 100]. -/
def allScoreFieldsInRange (S : ContentScoreR) : Prop :=
  (0 ≤ S.metadata_alignment ∧ S.metadata_alignment ≤ 100) ∧
  (0 ≤ S.hierarchical_decomposition ∧ S.hierarchical_decomposition ≤ 100) ∧
  (0 ≤ S.thematic_unity ∧ S.thematic_unity ≤ 100) ∧
  (0 ≤ S.balance ∧ S.balance ≤ 100) ∧
  (0 ≤ S.query_intent ∧ S.query_intent ≤ 100) ∧
  (0 ≤ S.structural_coherence ∧ S.structural_coherence ≤ 100) ∧
  (0 ≤ S.composite_score ∧ S.composite_score ≤ 100) ∧
  (0 ≤ S.seo_score ∧ S.seo_score ≤ 100)

/-- Claim C2: every value returned by `score_content` lies in [0, 100].
Proved for every embedding map, content, and optional query. -/
theorem scoreContent_all_mem (E : List Char → List ℝ)
    (text title description : List Char) (query : Option (List Char)) :
    allScoreFieldsInRange (scoreContent E text title description query) := by
  unfold allScoreFieldsInRange
  by_cases h : (chunkForEmbeddings text).isEmpty
  · simp only [scoreContent, h, if_true, createZeroScore]
    norm_num
  · have hmeta := scoreMetadataAlignment_mem E title description
      ((chunkForEmbeddings text).map E)
    have hhier := scoreHierarchicalDecomposition_mem (chunkForEmbeddings text)
      ((chunkForEmbeddings text).map E)
    have hthem := scoreThematicUnity_mem ((chunkForEmbeddings text).map E)
    have hbal := scoreBalance_mem (chunkForEmbeddings text)
      ((chunkForEmbeddings text).map E)
    have hstruct := scoreStructuralCoherence_mem (chunkForEmbeddings text)
      ((chunkForEmbeddings text).map E)
    have hintent : 0 ≤ (if optTruthy query then
          scoreQueryIntent E (query.getD []) ((chunkForEmbeddings text).map E)
          else 50) ∧
        (if optTruthy query then
          scoreQueryIntent E (query.getD []) ((chunkForEmbeddings text).map E)
          else 50) ≤ 100 := by
      split_ifs
      · exact scoreQueryIntent_mem E _ _
      · norm_num
    have hseo := calculateSeoScore_mem hmeta.1 hthem.1 hintent.1 hstruct.1
      title description text
    simp only [scoreContent, h, Bool.false_eq_true, if_false]
    refine ⟨⟨hmeta.1, hmeta.2⟩, ⟨hhier.1, hhier.2⟩, ⟨hthem.1, hthem.2⟩,
      ⟨hbal.1, hbal.2⟩, ⟨hintent.1, hintent.2⟩, ⟨hstruct.1, hstruct.2⟩,
      ⟨by nlinarith [hmeta.1, hhier.1, hthem.1, hbal.1, hintent.1, hstruct.1],
       by nlinarith [hmeta.2, hhier.2, hthem.2, hbal.2, hintent.2, hstruct.2]⟩,
      ⟨hseo.1, hseo.2⟩⟩

/- ===== Auxiliary list lemmas for the gap analysis ===== -/

theorem mem_dedup_foldl {α : Type} [DecidableEq α] (a : α) :
    ∀ (l acc : List α),
      a ∈ l.foldl (fun acc x => if x ∈ acc then acc else acc ++ [x]) acc ↔
        a ∈ acc ∨ a ∈ l := by
  intro l
  induction l with
  | nil => simp
  | cons x xs ih =>
    intro acc
    simp only [List.foldl_cons]
    rw [ih]
    by_cases hx : x ∈ acc
    · simp only [if_pos hx, List.mem_cons]
      constructor
      · rintro (h | h)
        · exact Or.inl h
        · exact Or.inr (Or.inr h)
      · rintro (h | rfl | h)
        · exact Or.inl h
        · exact Or.inl hx
        · exact Or.inr h
    · simp only [if_neg hx, List.mem_append, List.mem_singleton, List.mem_cons]
      tauto

theorem mem_dedupKeepFirst {α : Type} [DecidableEq α] (a : α) (l : List α) :
    a ∈ dedupKeepFirst l ↔ a ∈ l := by
  unfold dedupKeepFirst
  rw [mem_dedup_foldl]
  simp

/- ===== Claim C3: stage-02 cache reuse and query identity ===== -/

/-- Claim C3 as stated is false: with resume on and a cached artifact whose
stored query differs from the current project query, stage 02 still reuses
the cache. -/
theorem c3_counterexample : ¬ claimC3Prop := by
  intro h
  have := h true ⟨"widget framework", [], none⟩ "sprocket framework" 10 (by decide)
  exact absurd this (by decide)

/-- Amended claim C3: the stage-02 outcome does not depend on the current
query at all, and the cache is reused exactly when resume is enabled and the
artifact exists. -/
theorem c3_amended (resume : Bool) (artifact : Option SerpArtifact)
    (q q' : String) (topN : ℕ) :
    step02SerpFetching resume artifact q topN =
      step02SerpFetching resume artifact q' topN ∧
    (step02Reused (step02SerpFetching resume artifact q topN) = true ↔
      resume = true ∧ artifact.isSome = true) := by
  cases resume <;> cases artifact <;> simp [step02SerpFetching, step02Reused]

/- ===== Claim C4: significance threshold ===== -/

/-- Claim C4 as stated is false: with a single competitor (`K < 3`), a
phrase occurring once is not retained, although the claimed relaxed
threshold (`freq ≥ 1` when `K < 3`) would retain it. -/
theorem c4_counterexample : ¬ claimC4Prop := by
  intro h
  have := (h ["x1 y2 z3".toList] "x1 y2".toList).2 (by decide)
  exact absurd this (by decide)

/-- Amended claim C4: a phrase is significant exactly when its occurrence
count in the concatenation of all competitors' extracted phrase lists is at
least 3 — regardless of the number of competitors, and counting repeats
within a single competitor. -/
theorem c4_amended (competitors : List (List Char)) (p : List Char) :
    p ∈ (significantCompetitorPhrases competitors).map Prod.fst ↔
      3 ≤ (allCompetitorPhrases competitors).count p := by
  unfold significantCompetitorPhrases phraseFrequency
  constructor
  · intro hp
    obtain ⟨pc, hpc, rfl⟩ := List.mem_map.1 hp
    obtain ⟨hpc', h3⟩ := List.mem_filter.1 hpc
    obtain ⟨q, _, rfl⟩ := List.mem_map.1 hpc'
    simpa using h3
  · intro h3
    apply List.mem_map.2
    refine ⟨(p, (allCompetitorPhrases competitors).count p), ?_, rfl⟩
    apply List.mem_filter.2
    constructor
    · apply List.mem_map.2
      refine ⟨p, ?_, rfl⟩
      rw [mem_dedupKeepFirst]
      have hpos : 0 < (allCompetitorPhrases competitors).count p := by omega
      exact List.count_pos_iff.1 hpos
    · simpa using h3

/- ===== Claim C7: empty text and the zero score ===== -/

/-- Claim C7 as stated is false: for empty text the chunker returns the
single empty chunk `[""]`, so `score_content` proceeds to score it (the
hierarchy dimension gets the neutral 50, not 0, and no error is recorded). -/
theorem c7_counterexample : ¬ claimC7Prop := by
  intro h
  have h0 := h (fun _ => [(1 : ℝ)]) [] [] none
  have hch : chunkForEmbeddings ([] : List Char) = [[]] := by decide
  have h50 : (scoreContent (fun _ => [(1 : ℝ)]) [] [] [] none).hierarchical_decomposition
      = 50 := by
    simp [scoreContent, hch, scoreHierarchicalDecomposition]
  rw [h0] at h50
  norm_num [createZeroScore] at h50

/-- Amended claim C7: `score_content` returns the all-zero `ContentScore`
with error `"No content to analyze"` exactly when the chunker produces no
chunks — which happens for whitespace-only text of length at least 50, but
not for the empty string (it yields the single empty chunk). -/
theorem c7_amended (E : List Char → List ℝ) (text title description : List Char)
    (query : Option (List Char)) (h : chunkForEmbeddings text = []) :
    scoreContent E text title description query =
      createZeroScore "No content to analyze" := by
  simp [scoreContent, h]

/-- Witness for `c7_amended` at a 50-space text. -/
theorem c7_amended_witness :
    chunkForEmbeddings (List.replicate 50 ' ') = [] ∧
      scoreContent (fun _ => [(1 : ℝ)]) (List.replicate 50 ' ') [] [] none =
        createZeroScore "No content to analyze" :=
  ⟨by decide, c7_amended _ _ _ _ _ (by decide)⟩

/- ===== Claim C10: chunker totality ===== -/

/-- Claim C10 as stated is false: a 50-character whitespace-only text
produces the empty chunk list (every paragraph strips to empty), so the
scorer's no-chunks branch is reachable. -/
theorem c10_counterexample : ¬ claimC10Prop := by
  intro h
  exact (h (List.replicate 50 ' ')).1 (by decide)

/-- Amended claim C10: text shorter than the 50-character minimum is
returned as a single verbatim chunk, but a text of length at least 50 can
produce the empty list (e.g. 50 spaces). -/
theorem c10_amended (text : List Char) :
    (text.length < 50 → chunkForEmbeddings text = [text]) ∧
      chunkForEmbeddings (List.replicate 50 ' ') = [] := by
  constructor
  · intro h
    simp [chunkForEmbeddings, chunkText, h]
  · decide

/-- Witness for `c10_amended` on a short text. -/
theorem c10_amended_witness :
    ("hi".toList.length < 50) ∧ chunkForEmbeddings "hi".toList = ["hi".toList] :=
  ⟨by decide, (c10_amended "hi".toList).1 (by decide)⟩

/- ===== Claim C9: sequential proxy rotation ===== -/

/-- Claim C9 as stated is false: a proxy file with a duplicated line loads
the same proxy twice; with available set `{p1, p2}` of size 2 the first two
sequential `next()` calls both return `p1`. -/
theorem c9_counterexample : ¬ claimC9Prop := by
  intro h
  exact h (loadProxies ["u:p@h:1", "u:p@h:1", "u:p@h:2"] initialPMState)
    (by decide) (by decide)

/-- Reduction of `get_next_proxy` when at least two proxies are available:
no reset happens, the proxy at `current_index % len` is returned, and the
index advances. -/
theorem getNextProxy_spec (s : PMState) (h2 : 2 ≤ (availableProxies s).length) :
    getNextProxy s =
      (some ((availableProxies s).getD
        (s.currentIndex % (availableProxies s).length) ""),
       { s with currentIndex := s.currentIndex + 1 }) := by
  have hpne : s.proxies.isEmpty = false := by
    cases hsp : s.proxies with
    | nil =>
      exfalso
      unfold availableProxies at h2
      rw [hsp] at h2
      simp at h2
    | cons p ps => simp
  have hane : (availableProxies s).isEmpty = false := by
    cases ha : availableProxies s with
    | nil => rw [ha] at h2; simp at h2
    | cons p ps => simp
  simp [getNextProxy, hpne, hane]

/-- Amended claim C9: when the loaded proxies are pairwise distinct and at
least two are available, two immediately consecutive `next()` calls (with no
intervening `mark_failed`/reload) return different proxies. -/
theorem c9_amended (s : PMState) (hnodup : s.proxies.Nodup)
    (h2 : 2 ≤ (availableProxies s).length) :
    (getNextProxy s).1 ≠ (getNextProxy (getNextProxy s).2).1 := by
  have hA := getNextProxy_spec s h2
  have havail1 : availableProxies { s with currentIndex := s.currentIndex + 1 } =
      availableProxies s := rfl
  have h2' : 2 ≤ (availableProxies { s with currentIndex := s.currentIndex + 1 }).length := by
    rw [havail1]; exact h2
  have hB := getNextProxy_spec { s with currentIndex := s.currentIndex + 1 } h2'
  rw [hA]
  show some _ ≠ (getNextProxy { s with currentIndex := s.currentIndex + 1 }).1
  rw [hB]
  show some _ ≠ some _
  intro heq
  injection heq with heq
  rw [havail1] at heq
  have hn : 0 < (availableProxies s).length := by omega
  have hi1 : s.currentIndex % (availableProxies s).length <
      (availableProxies s).length := Nat.mod_lt _ hn
  have hi2 : (s.currentIndex + 1) % (availableProxies s).length <
      (availableProxies s).length := Nat.mod_lt _ hn
  rw [List.getD_eq_getElem _ _ hi1, List.getD_eq_getElem _ _ hi2] at heq
  have hnd : (availableProxies s).Nodup := hnodup.filter _
  have heqidx : s.currentIndex % (availableProxies s).length =
      (s.currentIndex + 1) % (availableProxies s).length := by
    exact (List.Nodup.getElem_inj_iff hnd).1 heq
  set n := (availableProxies s).length with hnle
  have hone : 1 % n = 1 := Nat.mod_eq_of_lt (by omega)
  have hsucc : (s.currentIndex + 1) % n = (s.currentIndex % n + 1) % n := by
    conv_lhs => rw [Nat.add_mod, hone]
  rw [hsucc] at heqidx
  rcases Nat.lt_or_ge (s.currentIndex % n + 1) n with hlt | hge
  · rw [Nat.mod_eq_of_lt hlt] at heqidx
    omega
  · have hEq : s.currentIndex % n + 1 = n := by omega
    rw [hEq, Nat.mod_self] at heqidx
    omega

/-- Witness for `c9_amended` on a two-proxy pool. -/
theorem c9_amended_witness :
    (loadProxies ["u:p@h:1", "u:p@h:2"] initialPMState).proxies.Nodup ∧
      2 ≤ (availableProxies (loadProxies ["u:p@h:1", "u:p@h:2"] initialPMState)).length ∧
      (getNextProxy (loadProxies ["u:p@h:1", "u:p@h:2"] initialPMState)).1 ≠
        (getNextProxy (getNextProxy
          (loadProxies ["u:p@h:1", "u:p@h:2"] initialPMState)).2).1 :=
  ⟨by decide, by decide,
    c9_amended (loadProxies ["u:p@h:1", "u:p@h:2"] initialPMState)
      (by decide) (by decide)⟩

/- ===== Claim C1: gap relevance, impact and filtering ===== -/

/-- Claim C1 as stated is false: with a unit-normalized mock embedding under
which the one missing phrase is orthogonal to the query, the phrase is still
returned (there is no relevance/usage filter in the source), and its
`query_relevance` is `0` (the raw cosine as a percentage), not the
[0,1]-mapped `0.5`. -/
theorem c1_counterexample : ¬ claimC1Prop := by
  intro h
  have hE : ∀ s : List Char,
      dotQ ((fun t => if t = "a1 b2".toList then [(1 : ℚ), 0] else [0, 1]) s)
        ((fun t => if t = "a1 b2".toList then [(1 : ℚ), 0] else [0, 1]) s) = 1 := by
    intro s
    by_cases hs : s = "a1 b2".toList
    · subst hs; decide
    · simp only [if_neg hs]; decide
  have h1 := h (fun t => if t = "a1 b2".toList then [(1 : ℚ), 0] else [0, 1]) hE
    [] ["a1 b2 a1 b2 a1 b2".toList] "qq".toList 50
    ⟨"a1 b2".toList, 5, 0, 1, 100, "LOW PRIORITY: Minor improvement potential"⟩
    (by decide)
  exact absurd h1.1 (by decide)

/-- The `if missing.isEmpty` guard of `analyze_semantic_gaps` is redundant:
relevance analysis of an empty phrase list is the empty list. -/
theorem analysisIf_eq (E : List Char → List ℚ) (missing : List (List Char))
    (query : List Char) (competitors : List (List Char)) :
    (if missing.isEmpty then []
     else analyzePhraseRelevance E missing query competitors) =
      analyzePhraseRelevance E missing query competitors := by
  cases missing with
  | nil => simp [analyzePhraseRelevance]
  | cons p ps => simp

/-- The returned concept list is the sorted, truncated relevance analysis of
the missing phrases. -/
theorem missing_concepts_eq (E : List Char → List ℚ) (target : List Char)
    (competitors : List (List Char)) (query : List Char) (topN : ℕ) :
    (analyzeSemanticGaps E target competitors query topN).missing_concepts =
      (sortGapsByImpact (analyzePhraseRelevance E
        (missingPhrases target competitors) query competitors)).take topN := by
  simp only [analyzeSemanticGaps]
  rw [analysisIf_eq]

/-- Amended claim C1: for every record in the returned gap list,
`query_relevance` is the raw cosine similarity as a percentage rounded to 1
decimal, `estimated_impact` is `round(10·cos + 5·(usage/K), 2)`, and
`competitor_usage` is the number of competitor contents containing the
lowercased phrase as a substring; every missing phrase is kept (no
relevance or usage filter), subject only to the `topN` truncation. -/
theorem c1_amended (E : List Char → List ℚ) (target : List Char)
    (competitors : List (List Char)) (query : List Char) (topN : ℕ) :
    (∀ r ∈ (analyzeSemanticGaps E target competitors query topN).missing_concepts,
      r.query_relevance = pyRound 1 (dotQ (E r.phrase) (E query) * 100) ∧
      r.estimated_impact = pyRound 2 (dotQ (E r.phrase) (E query) * 10 +
        ((r.competitor_usage : ℚ) / (competitors.length : ℚ)) * 5) ∧
      r.competitor_usage = (competitors.filter (fun c =>
        containsSub (toLowerChars r.phrase) (toLowerChars c))).length ∧
      r.phrase ∈ missingPhrases target competitors) ∧
    ((missingPhrases target competitors).length ≤ topN →
      ∀ p ∈ missingPhrases target competitors,
        ∃ r ∈ (analyzeSemanticGaps E target competitors query topN).missing_concepts,
          r.phrase = p) := by
  constructor
  · intro r hr
    rw [missing_concepts_eq] at hr
    have hr2 : r ∈ sortGapsByImpact (analyzePhraseRelevance E
        (missingPhrases target competitors) query competitors) :=
      List.take_subset _ _ hr
    have hperm := List.perm_insertionSort gapGE (analyzePhraseRelevance E
      (missingPhrases target competitors) query competitors)
    have hr3 : r ∈ analyzePhraseRelevance E
        (missingPhrases target competitors) query competitors :=
      hperm.mem_iff.1 hr2
    obtain ⟨p, hp, rfl⟩ := List.mem_map.1 hr3
    exact ⟨rfl, rfl, rfl, hp⟩
  · intro hlen p hp
    rw [missing_concepts_eq]
    have hperm := List.perm_insertionSort gapGE (analyzePhraseRelevance E
      (missingPhrases target competitors) query competitors)
    have hlen2 : (sortGapsByImpact (analyzePhraseRelevance E
        (missingPhrases target competitors) query competitors)).length ≤ topN := by
      rw [sortGapsByImpact, hperm.length_eq]
      unfold analyzePhraseRelevance
      rw [List.length_map]
      exact hlen
    rw [List.take_of_length_le hlen2]
    have hmem : ∃ r ∈ analyzePhraseRelevance E
        (missingPhrases target competitors) query competitors, r.phrase = p := by
      unfold analyzePhraseRelevance
      exact ⟨_, List.mem_map.2 ⟨p, hp, rfl⟩, rfl⟩
    obtain ⟨r, hrmem, hrp⟩ := hmem
    exact ⟨r, hperm.mem_iff.2 hrmem, hrp⟩

/-- Witness for `c1_amended` on a concrete mock instance. -/
theorem c1_amended_witness :
    (⟨"a1 b2".toList, 5, 0, 1, 100,
        "LOW PRIORITY: Minor improvement potential"⟩ : GapRec) ∈
      (analyzeSemanticGaps
        (fun t => if t = "a1 b2".toList then [(1 : ℚ), 0] else [0, 1])
        [] ["a1 b2 a1 b2 a1 b2".toList] "qq".toList 50).missing_concepts ∧
    (⟨"a1 b2".toList, 5, 0, 1, 100,
        "LOW PRIORITY: Minor improvement potential"⟩ : GapRec).query_relevance =
      pyRound 1 (dotQ
        ((fun t => if t = "a1 b2".toList then [(1 : ℚ), 0] else [0, 1])
          ("a1 b2".toList))
        ((fun t => if t = "a1 b2".toList then [(1 : ℚ), 0] else [0, 1])
          ("qq".toList)) * 100) :=
  ⟨by decide,
    ((c1_amended (fun t => if t = "a1 b2".toList then [(1 : ℚ), 0] else [0, 1])
      [] ["a1 b2 a1 b2 a1 b2".toList] "qq".toList 50).1
      ⟨"a1 b2".toList, 5, 0, 1, 100,
        "LOW PRIORITY: Minor improvement potential"⟩ (by decide)).1⟩

/- ===== Claim C5: gap list invariants ===== -/

/-- Claim C5 as stated is false: ties in `estimated_impact` are possible
(two missing phrases with equal similarity and usage), so the list is not
strictly sorted. -/
theorem c5_counterexample : ¬ claimC5Prop := by
  intro h
  have h1 := (h (fun _ => [(1 : ℚ)]) []
    ["a1 b2 a1 b2 a1 b2 a1".toList] "qq".toList 50).2.1
  exact absurd h1 (by decide)

/-- Amended claim C5: the gap list contains no target phrase, is sorted by
`estimated_impact` in (weakly) descending order, and has length at most
`topN`. -/
theorem c5_amended (E : List Char → List ℚ) (target : List Char)
    (competitors : List (List Char)) (query : List Char) (topN : ℕ) :
    (∀ r ∈ (analyzeSemanticGaps E target competitors query topN).missing_concepts,
      r.phrase ∉ targetPhraseList target) ∧
    (analyzeSemanticGaps E target competitors query topN).missing_concepts.Pairwise
      (fun a b => b.estimated_impact ≤ a.estimated_impact) ∧
    (analyzeSemanticGaps E target competitors query topN).missing_concepts.length
      ≤ topN := by
  refine ⟨?_, ?_, ?_⟩
  · intro r hr
    rw [missing_concepts_eq] at hr
    have hr2 := List.take_subset _ _ hr
    have hperm := List.perm_insertionSort gapGE (analyzePhraseRelevance E
      (missingPhrases target competitors) query competitors)
    have hr3 := hperm.mem_iff.1 hr2
    obtain ⟨p, hp, rfl⟩ := List.mem_map.1 hr3
    have hp2 := List.mem_filter.1 hp
    have h2 : p ∉ targetPhraseList target := by
      simpa using hp2.2
    exact h2
  · rw [missing_concepts_eq]
    apply List.Pairwise.sublist (List.take_sublist _ _)
    exact List.sorted_insertionSort gapGE _
  · rw [missing_concepts_eq]
    exact List.length_take_le _ _

/-- Witness for `c5_amended` on a concrete mock instance. -/
theorem c5_amended_witness :
    (⟨"a1 b2".toList, 15, 100, 1, 100,
        "HIGH PRIORITY: Add this concept to your content for significant impact"⟩ :
      GapRec) ∈
      (analyzeSemanticGaps (fun _ => [(1 : ℚ)]) []
        ["a1 b2 a1 b2 a1 b2 a1".toList] "qq".toList 50).missing_concepts ∧
    (⟨"a1 b2".toList, 15, 100, 1, 100,
        "HIGH PRIORITY: Add this concept to your content for significant impact"⟩ :
      GapRec).phrase ∉ targetPhraseList [] :=
  ⟨by decide,
    (c5_amended (fun _ => [(1 : ℚ)]) [] ["a1 b2 a1 b2 a1 b2 a1".toList]
      "qq".toList 50).1
      ⟨"a1 b2".toList, 15, 100, 1, 100,
        "HIGH PRIORITY: Add this concept to your content for significant impact"⟩
      (by decide)⟩

/- ===== Claim C6: phrase extraction ===== -/

/-- Claim C6 as stated is false: the claimed phrase universe includes
6-grams (and a `200`-character sentence cap and an `of ` stop pattern), but
the source emits n-grams only for `n ∈ range(2, 6) = {2,3,4,5}`; on a
6-word uppercase text the claimed lowercase 6-gram is not produced. -/
theorem c6_counterexample : ¬ claimC6Prop := by
  intro h
  have := (h "P1 Q2 R3 S4 T5 U6".toList "p1 q2 r3 s4 t5 u6".toList).2
    (Or.inr (by decide))
  exact absurd this (by decide)

/-- Membership characterization of the source's n-gram phrases:
contiguous n-grams of the lowercased whitespace-split words for
`n ∈ {2,3,4,5}`, minus stop phrases. -/
theorem mem_ngramPhrases_iff (content p : List Char) :
    p ∈ ngramPhrases content ↔
      ∃ n ∈ ([2, 3, 4, 5] : List ℕ), ∃ i,
        i + n ≤ (pyWords (toLowerChars content)).length ∧
        p = joinSpace (((pyWords (toLowerChars content)).drop i).take n) ∧
        isStopPhrase p = false := by
  simp only [ngramPhrases, List.mem_filter, List.mem_flatMap, List.mem_map,
    List.mem_range, Bool.not_eq_true']
  constructor
  · rintro ⟨⟨n, hn, i, hi, rfl⟩, hstop⟩
    exact ⟨n, hn, i, by omega, rfl, hstop⟩
  · rintro ⟨n, hn, i, hle, rfl, hstop⟩
    exact ⟨⟨n, hn, i, by omega, rfl⟩, hstop⟩

/-- Amended claim C6: the extraction returns exactly the sentence phrases of
stripped length 15..100 with at least 3 words, plus every contiguous
lowercase n-gram for `n ∈ {2,3,4,5}` that does not match one of the eleven
leading stop patterns (`of ` is not among them). -/
theorem c6_amended (content p : List Char) :
    p ∈ extractPhrases 15 100 content ↔
      (p ∈ sentencePhrases 15 100 content ∨
        ∃ n ∈ ([2, 3, 4, 5] : List ℕ), ∃ i,
          i + n ≤ (pyWords (toLowerChars content)).length ∧
          p = joinSpace (((pyWords (toLowerChars content)).drop i).take n) ∧
          isStopPhrase p = false) := by
  rw [extractPhrases, List.mem_append, mem_ngramPhrases_iff]

/- ===== Claim C8: the centroid ===== -/

/-- Claim C8 as stated is false: `compute_centroid` does not normalize; for
the two orthogonal unit rows `[1,0]` and `[0,1]` the centroid is
`[1/2, 1/2]`, whose norm `√(1/2)` is far from 1. -/
theorem c8_counterexample : ¬ claimC8Prop := by
  intro h
  have h2 := h [[1, 0], [0, 1]] (by simp)
  have hc : computeCentroid [[(1 : ℝ), 0], [0, 1]] = [1 / 2, 1 / 2] := by
    norm_num [computeCentroid]
  rw [hc] at h2
  have hdot : dotR [(1 : ℝ) / 2, 1 / 2] [(1 : ℝ) / 2, 1 / 2] = 1 / 2 := by
    norm_num [dotR]
  have hn : normR [(1 : ℝ) / 2, 1 / 2] = Real.sqrt (1 / 2) := by
    rw [normR, hdot]
  rw [hn] at h2
  have hlt : Real.sqrt (1 / 2) < 1 - 1 / 10000 := by
    rw [show (1 : ℝ) - 1 / 10000 = Real.sqrt ((1 - 1 / 10000) ^ 2) by
      rw [Real.sqrt_sq (by norm_num)]]
    exact Real.sqrt_lt_sqrt (by norm_num) (by norm_num)
  have habs := (abs_le.1 h2).1
  linarith

theorem zipWith_add_getD : ∀ (u v : List ℝ) (j : ℕ), j < u.length → j < v.length →
    (List.zipWith (· + ·) u v).getD j 0 = u.getD j 0 + v.getD j 0
  | [], _, _, h, _ => absurd h (by simp)
  | _ :: _, [], _, _, h => absurd h (by simp)
  | a :: u, b :: v, 0, _, _ => by simp
  | a :: u, b :: v, j + 1, hu, hv => by
    simp only [List.zipWith_cons_cons, List.getD_cons_succ]
    exact zipWith_add_getD u v j (by simpa using hu) (by simpa using hv)

theorem foldl_zipWith_length : ∀ (rs : List (List ℝ)) (acc : List ℝ),
    (∀ r ∈ rs, r.length = acc.length) →
    (rs.foldl (List.zipWith (· + ·)) acc).length = acc.length
  | [], _, _ => rfl
  | r :: rs, acc, h => by
    simp only [List.foldl_cons]
    have hr : r.length = acc.length := h r (List.mem_cons_self _ _)
    have hlen : (List.zipWith (· + ·) acc r).length = acc.length := by
      rw [List.length_zipWith]; omega
    rw [foldl_zipWith_length rs _ (fun x hx => by
      rw [hlen]; exact h x (List.mem_cons_of_mem _ hx)), hlen]

theorem foldl_zipWith_add_getD : ∀ (rs : List (List ℝ)) (acc : List ℝ),
    (∀ r ∈ rs, r.length = acc.length) → ∀ j, j < acc.length →
    (rs.foldl (List.zipWith (· + ·)) acc).getD j 0 =
      acc.getD j 0 + (rs.map (fun r => r.getD j 0)).sum
  | [], _, _, _, _ => by simp
  | r :: rs, acc, h, j, hj => by
    simp only [List.foldl_cons, List.map_cons, List.sum_cons]
    have hr : r.length = acc.length := h r (List.mem_cons_self _ _)
    have hlen : (List.zipWith (· + ·) acc r).length = acc.length := by
      rw [List.length_zipWith]; omega
    rw [foldl_zipWith_add_getD rs (List.zipWith (· + ·) acc r)
      (fun x hx => by rw [hlen]; exact h x (List.mem_cons_of_mem _ hx)) j (by omega),
      zipWith_add_getD acc r j hj (by omega)]
    ring

/-- Amended claim C8: `compute_centroid` returns the plain arithmetic mean
of the rows (`np.mean(embeddings, axis=0)`), with no normalization:
component `j` of the result is the mean of the rows' `j`-th components. -/
theorem c8_amended (M : List (List ℝ)) (d : ℕ) (hd : ∀ r ∈ M, r.length = d)
    (hne : M ≠ []) (j : ℕ) (hj : j < d) :
    (computeCentroid M).getD j 0 =
      (M.map (fun r => r.getD j 0)).sum / (M.length : ℝ) := by
  cases M with
  | nil => exact absurd rfl hne
  | cons r rs =>
    have hr : r.length = d := hd r (List.mem_cons_self _ _)
    have hrs : ∀ x ∈ rs, x.length = r.length := fun x hx => by
      rw [hd x (List.mem_cons_of_mem _ hx), hr]
    have hlenf : (rs.foldl (List.zipWith (· + ·)) r).length = r.length :=
      foldl_zipWith_length rs r hrs
    have hjr : j < r.length := by omega
    have hjf : j < (rs.foldl (List.zipWith (· + ·)) r).length := by omega
    show ((rs.foldl (List.zipWith (· + ·)) r).map
        (fun x => x / ((rs.length + 1 : ℕ) : ℝ))).getD j 0 = _
    have hgetmap : ((rs.foldl (List.zipWith (· + ·)) r).map
        (fun x => x / ((rs.length + 1 : ℕ) : ℝ))).getD j 0 =
        (rs.foldl (List.zipWith (· + ·)) r).getD j 0 / ((rs.length + 1 : ℕ) : ℝ) := by
      rw [List.getD_eq_getElem _ _ (by simpa using hjf),
        List.getD_eq_getElem _ _ hjf]
      simp
    rw [hgetmap, foldl_zipWith_add_getD rs r hrs j hjr]
    simp only [List.map_cons, List.sum_cons, List.length_cons]

/-- Witness for `c8_amended` on the matrix `[[1,0],[0,1]]`. -/
theorem c8_amended_witness :
    (([[(1 : ℝ), 0], [0, 1]] : List (List ℝ)) ≠ [] ∧
      (computeCentroid [[(1 : ℝ), 0], [0, 1]]).getD 0 0 =
        (([[(1 : ℝ), 0], [0, 1]] : List (List ℝ)).map (fun r => r.getD 0 0)).sum /
          ((([[(1 : ℝ), 0], [0, 1]] : List (List ℝ)).length : ℕ) : ℝ)) :=
  ⟨by simp, c8_amended [[(1 : ℝ), 0], [0, 1]] 2
    (by intro r hr; fin_cases hr <;> simp) (by simp) 0 (by norm_num)⟩

end SEOMining
